import Mathlib

/-!
Verification of the committee module of snarkOS
(`src/node/narwhal/src/committee.rs`).

The `Committee<N>` struct is embedded as a Lean structure over `Nat` keys:
* validator addresses (`Address<N>`, an opaque comparable key) are `Nat`;
* peer IPs (`SocketAddr`) are `Nat`;
* the `PrimarySender<N>` handle is opaque, modelled as `Nat`;
* the three `HashMap`s are association lists with replace-on-insert
  semantics, matching `HashMap::insert` / `HashMap::remove` / `get`;
* `u64` stake values and the `AtomicU64` round counter are `Nat` with
  explicit `2^64` bounds where overflow or saturation matters;
* fallible methods (`Result<T>` with `bail!`) return `Except CommitteeError`;
* methods that mutate through `&self` locks are state-passing functions;
* a panic (`.expect(..)` on the `OnceCell`) is modelled as `none`.
-/

namespace SnarkOS

/-- `u64::MAX`. -/
def U64MAX : Nat := 2 ^ 64 - 1

/-- Lookup in an association list, modelling `HashMap::get`. -/
def lookupKey {β : Type} : List (Nat × β) → Nat → Option β
  | [], _ => none
  | (k', v) :: rest, k => if k' = k then some v else lookupKey rest k

/-- Removal from an association list, modelling `HashMap::remove`
(drops every entry with the given key; on a well-formed map there is at
most one). -/
def removeKey {β : Type} : List (Nat × β) → Nat → List (Nat × β)
  | [], _ => []
  | (k', v) :: rest, k =>
    if k' = k then removeKey rest k else (k', v) :: removeKey rest k

/-- Insertion into an association list, modelling `HashMap::insert`:
the new binding replaces any existing binding of the same key. -/
def insertKey {β : Type} (m : List (Nat × β)) (k : Nat) (v : β) : List (Nat × β) :=
  (k, v) :: removeKey m k

/-- The `Committee<N>` struct: stake ledger, round counter, the two peer
maps, and the write-once primary sender slot. -/
structure Committee where
  committee : List (Nat × Nat)
  round : Nat
  peer_addresses : List (Nat × Nat)
  address_peers : List (Nat × Nat)
  primarySender : Option Nat
  deriving DecidableEq

/-- `Committee::new(round)`: every map empty, the sender slot unset. -/
def Committee.new (round : Nat) : Committee :=
  { committee := [], round := round, peer_addresses := [], address_peers := [],
    primarySender := none }

/-- The two `bail!` error paths of the module:
`"Validator already in committee"` and
`"Failed to calculate total stake - overflow detected"`. -/
inductive CommitteeError where
  | duplicateValidator
  | stakeOverflow
  deriving DecidableEq

/-- `is_committee_member`: membership test on the stake ledger. -/
def is_committee_member (c : Committee) (address : Nat) : Bool :=
  (lookupKey c.committee address).isSome

/-- `add_validator`: fails when the address is already a member, otherwise
inserts the `(address, stake)` pair.  The returned state is the committee
after the call (unchanged on the error path, which bails before the
insert). -/
def add_validator (c : Committee) (address stake : Nat) :
    Committee × Except CommitteeError Unit :=
  if is_committee_member c address then
    (c, Except.error CommitteeError.duplicateValidator)
  else
    ({ c with committee := insertKey c.committee address stake }, Except.ok ())

/-- `committee_size`: number of validators in the committee. -/
def committee_size (c : Committee) : Nat :=
  c.committee.length

/-- `get_stake`: the stake of the address, `unwrap_or_default()` (zero)
when absent. -/
def get_stake (c : Committee) (address : Nat) : Nat :=
  (lookupKey c.committee address).getD 0

/-- `u64::checked_add`. -/
def checked_add (a b : Nat) : Option Nat :=
  if a + b ≤ U64MAX then some (a + b) else none

/-- The accumulation loop of `total_stake`: `power` starts at `0u64` and
each stake is added with `checked_add`, aborting on overflow. -/
def total_stake_aux : Nat → List Nat → Option Nat
  | power, [] => some power
  | power, s :: rest =>
    match checked_add power s with
    | some p => total_stake_aux p rest
    | none => none

/-- `total_stake`: sums the stakes of the committee map, failing with the
overflow error when the running `u64` sum would overflow. -/
def total_stake (c : Committee) : Except CommitteeError Nat :=
  match total_stake_aux 0 (c.committee.map Prod.snd) with
  | some p => Except.ok p
  | none => Except.error CommitteeError.stakeOverflow

/-- `u64::saturating_mul`. -/
def saturating_mul (a b : Nat) : Nat :=
  min (a * b) U64MAX

/-- `u64::saturating_add`. -/
def saturating_add (a b : Nat) : Nat :=
  min (a + b) U64MAX

/-- `quorum_threshold`: `total_stake()?.saturating_mul(2) / 3 + 1`. -/
def quorum_threshold (c : Committee) : Except CommitteeError Nat :=
  (total_stake c).map fun t => saturating_mul t 2 / 3 + 1

/-- `availability_threshold`: `total_stake()?.saturating_add(2) / 3`. -/
def availability_threshold (c : Committee) : Except CommitteeError Nat :=
  (total_stake c).map fun t => saturating_add t 2 / 3

/-- `increment_round`: `fetch_add(1, ..)` on an `AtomicU64`, which wraps
modulo `2^64`. -/
def increment_round (c : Committee) : Committee :=
  { c with round := (c.round + 1) % 2 ^ 64 }

/-- `increment_round` called `n` times. -/
def incrementN : Committee → Nat → Committee
  | c, 0 => c
  | c, n + 1 => incrementN (increment_round c) n

/-- `get_peer_ip`: the peer IP bound to the given address. -/
def get_peer_ip (c : Committee) (address : Nat) : Option Nat :=
  lookupKey c.address_peers address

/-- `get_address`: the address bound to the given peer IP. -/
def get_address (c : Committee) (peer_ip : Nat) : Option Nat :=
  lookupKey c.peer_addresses peer_ip

/-- `insert_peer`: unconditionally inserts into both directions. -/
def insert_peer (c : Committee) (peer_ip address : Nat) : Committee :=
  { c with
    peer_addresses := insertKey c.peer_addresses peer_ip address,
    address_peers := insertKey c.address_peers address peer_ip }

/-- `remove_peer`: when the peer IP is bound, removes the forward entry
and the reverse entry of the removed address; otherwise a no-op. -/
def remove_peer (c : Committee) (peer_ip : Nat) : Committee :=
  match lookupKey c.peer_addresses peer_ip with
  | some address =>
    { c with
      peer_addresses := removeKey c.peer_addresses peer_ip,
      address_peers := removeKey c.address_peers address }
  | none => c

/-- `primary_sender`: `get().expect("Primary sender not set")`; `none`
models the panic when the slot was never set. -/
def primary_sender (c : Committee) : Option Nat :=
  c.primarySender

/-- `set_primary_sender`: `set(..).expect("Primary sender already set")`;
`none` models the panic when the slot is already set. -/
def set_primary_sender (c : Committee) (s : Nat) : Option Committee :=
  match c.primarySender with
  | none => some { c with primarySender := some s }
  | some _ => none

/-- A peer-directory operation: `insert_peer` (Bind) or `remove_peer`
(Unbind). -/
inductive PeerOp where
  | bind (peer_ip address : Nat)
  | unbind (peer_ip : Nat)
  deriving DecidableEq

/-- Apply one peer-directory operation. -/
def applyPeerOp (c : Committee) : PeerOp → Committee
  | PeerOp.bind ip a => insert_peer c ip a
  | PeerOp.unbind ip => remove_peer c ip

/-- Apply a sequence of peer-directory operations, left to right. -/
def applyPeerOps : Committee → List PeerOp → Committee
  | c, [] => c
  | c, op :: rest => applyPeerOps (applyPeerOp c op) rest

/-- Mutual consistency of the two peer maps: address `a` is bound to peer
IP `ip` in the forward map iff it is in the backward map. -/
def Consistent (c : Committee) : Prop :=
  ∀ ip a, get_address c ip = some a ↔ get_peer_ip c a = some ip

/-- Along a trace of peer-directory operations, every `bind` uses a peer
IP with no current binding and an address with no current binding. -/
def FreshBinds : Committee → List PeerOp → Prop
  | _, [] => True
  | c, PeerOp.bind ip a :: rest =>
    get_address c ip = none ∧ get_peer_ip c a = none ∧
      FreshBinds (applyPeerOp c (PeerOp.bind ip a)) rest
  | c, PeerOp.unbind ip :: rest => FreshBinds (applyPeerOp c (PeerOp.unbind ip)) rest

/-- A sequence of `add_validator` (Register) calls, stopping at the first
failure. -/
def registerAll : Committee → List (Nat × Nat) → Committee × Except CommitteeError Unit
  | c, [] => (c, Except.ok ())
  | c, (a, s) :: rest =>
    match add_validator c a s with
    | (c', Except.ok _) => registerAll c' rest
    | (c', Except.error e) => (c', Except.error e)

/-! ### Association-list lemmas -/

theorem lookupKey_remove_self {β : Type} :
    ∀ (m : List (Nat × β)) (k : Nat), lookupKey (removeKey m k) k = none := by
  intro m k
  induction m with
  | nil => rfl
  | cons p rest ih =>
    obtain ⟨a, b⟩ := p
    by_cases hk : a = k
    · simpa [removeKey, hk] using ih
    · simpa [removeKey, hk, lookupKey] using ih

theorem lookupKey_remove_ne {β : Type} (m : List (Nat × β)) (k k' : Nat)
    (h : k' ≠ k) : lookupKey (removeKey m k) k' = lookupKey m k' := by
  have hkk : ¬ k = k' := fun hc => h hc.symm
  induction m with
  | nil => rfl
  | cons p rest ih =>
    obtain ⟨a, b⟩ := p
    by_cases hk : a = k
    · simpa [removeKey, hk, lookupKey, hkk] using ih
    · by_cases hq : a = k'
      · simp [removeKey, hk, lookupKey, hq, h]
      · simpa [removeKey, hk, lookupKey, hq] using ih

theorem lookupKey_insert_self {β : Type} (m : List (Nat × β)) (k : Nat) (v : β) :
    lookupKey (insertKey m k v) k = some v := by
  simp [insertKey, lookupKey]

theorem lookupKey_insert_ne {β : Type} (m : List (Nat × β)) (k k' : Nat) (v : β)
    (h : k' ≠ k) : lookupKey (insertKey m k v) k' = lookupKey m k' := by
  have hkk : k ≠ k' := fun hc => h hc.symm
  simp [insertKey, lookupKey, hkk, lookupKey_remove_ne m k k' h]

theorem removeKey_eq_of_lookup_none {β : Type} :
    ∀ (m : List (Nat × β)) (k : Nat), lookupKey m k = none → removeKey m k = m := by
  intro m k
  induction m with
  | nil => exact fun _ => rfl
  | cons p rest ih =>
    obtain ⟨a, b⟩ := p
    intro h
    by_cases hk : a = k
    · simp [lookupKey, hk] at h
    · have h' : lookupKey rest k = none := by simpa [lookupKey, hk] using h
      simp [removeKey, hk, ih h']

/-! ### Stake-sum lemmas -/

theorem total_stake_aux_spec :
    ∀ (vals : List Nat) (p : Nat), p ≤ U64MAX →
      total_stake_aux p vals =
        if p + vals.sum ≤ U64MAX then some (p + vals.sum) else none := by
  intro vals
  induction vals with
  | nil =>
    intro p hp
    simp [total_stake_aux, hp]
  | cons s rest ih =>
    intro p hp
    by_cases hs : p + s ≤ U64MAX
    · rw [show total_stake_aux p (s :: rest) = total_stake_aux (p + s) rest from by
        simp [total_stake_aux, checked_add, hs]]
      rw [ih (p + s) hs]
      simp [Nat.add_assoc]
    · have h1 : total_stake_aux p (s :: rest) = none := by
        simp [total_stake_aux, checked_add, hs]
      rw [h1, List.sum_cons, if_neg (by omega)]

/-- Closed form of `total_stake`: the sum of the stake column when it fits
in a `u64`, the overflow error otherwise. -/
theorem total_stake_eq (c : Committee) :
    total_stake c =
      if (c.committee.map Prod.snd).sum ≤ U64MAX
      then Except.ok (c.committee.map Prod.snd).sum
      else Except.error CommitteeError.stakeOverflow := by
  unfold total_stake
  rw [total_stake_aux_spec _ 0 (Nat.zero_le _)]
  by_cases hs : (c.committee.map Prod.snd).sum ≤ U64MAX
  · simp [hs]
  · simp [hs]

theorem total_stake_le_max {c : Committee} {T : Nat}
    (h : total_stake c = Except.ok T) : T ≤ U64MAX := by
  rw [total_stake_eq] at h
  by_cases hs : (c.committee.map Prod.snd).sum ≤ U64MAX
  · rw [if_pos hs] at h
    injection h with h'
    omega
  · rw [if_neg hs] at h
    injection h

/-! ### Claims -/

/-- Claim C2 (corrected), counterexample: a committee whose single
validator holds stake `u64::MAX` has a successful `total_stake` of
`u64::MAX`, yet `quorum_threshold` returns `⌊u64::MAX / 3⌋ + 1`
(the `saturating_mul` caps `2 × T` at `u64::MAX`), which differs from
`⌊2T/3⌋ + 1` and is not strictly greater than `2 × T / 3 × 3`. -/
theorem C2_counterexample :
    total_stake (add_validator (Committee.new 0) 0 U64MAX).1 = Except.ok U64MAX ∧
    quorum_threshold (add_validator (Committee.new 0) 0 U64MAX).1 =
      Except.ok 6148914691236517206 ∧
    2 * U64MAX / 3 + 1 = 12297829382473034411 ∧
    ¬ (2 * U64MAX < 3 * 6148914691236517206) :=
  ⟨rfl, rfl, by decide, by decide⟩

/-- Claim C2 (amended): whenever `total_stake` succeeds with `T` such that
`2 × T` does not overflow a `u64`, `quorum_threshold` returns exactly
`⌊2T/3⌋ + 1`, which satisfies `2T < 3 × threshold ≤ 2T + 3`; in
particular `T = 10` and `T = 9` both give `7`. -/
theorem C2_quorum_threshold (c : Committee) (T : Nat)
    (hT : total_stake c = Except.ok T) (hbound : 2 * T ≤ U64MAX) :
    quorum_threshold c = Except.ok (2 * T / 3 + 1) ∧
    2 * T < 3 * (2 * T / 3 + 1) ∧
    3 * (2 * T / 3 + 1) ≤ 2 * T + 3 ∧
    (T = 10 → quorum_threshold c = Except.ok 7) ∧
    (T = 9 → quorum_threshold c = Except.ok 7) := by
  have hq : quorum_threshold c = Except.ok (2 * T / 3 + 1) := by
    unfold quorum_threshold
    rw [hT]
    simp only [Except.map]
    unfold saturating_mul
    rw [Nat.mul_comm T 2, Nat.min_eq_left (by omega)]
  refine ⟨hq, by omega, by omega, ?_, ?_⟩
  · intro h
    subst h
    rw [hq]
  · intro h
    subst h
    rw [hq]

/-- Witness for C2 at a committee of total stake `10`. -/
theorem C2_quorum_threshold_witness :
    total_stake (add_validator (Committee.new 0) 0 10).1 = Except.ok 10 ∧
    quorum_threshold (add_validator (Committee.new 0) 0 10).1 = Except.ok 7 :=
  ⟨rfl, (C2_quorum_threshold (add_validator (Committee.new 0) 0 10).1 10 rfl
    (by decide)).2.2.2.1 rfl⟩

/-- Claim C5 (confirmed): whenever `total_stake` succeeds with `T`,
`availability_threshold` returns exactly `⌊(T + 2) / 3⌋` — the saturating
addition never changes the result, because `u64::MAX = 2^64 - 1` is
divisible by `3` — and the result is `⌈T / 3⌉` (characterized by
`T ≤ 3 × result < T + 3`); in particular `T = 10` gives `4` and `T = 9`
gives `3`. -/
theorem C5_availability_threshold (c : Committee) (T : Nat)
    (hT : total_stake c = Except.ok T) :
    availability_threshold c = Except.ok ((T + 2) / 3) ∧
    T ≤ 3 * ((T + 2) / 3) ∧
    3 * ((T + 2) / 3) < T + 3 ∧
    (T = 10 → availability_threshold c = Except.ok 4) ∧
    (T = 9 → availability_threshold c = Except.ok 3) := by
  have hmax : T ≤ U64MAX := total_stake_le_max hT
  have ha : availability_threshold c = Except.ok ((T + 2) / 3) := by
    unfold availability_threshold
    rw [hT]
    simp only [Except.map]
    congr 1
    unfold saturating_add
    unfold U64MAX at hmax ⊢
    omega
  refine ⟨ha, by omega, by omega, ?_, ?_⟩
  · intro h
    subst h
    rw [ha]
  · intro h
    subst h
    rw [ha]

/-- Witness for C5 at a committee of total stake `10`. -/
theorem C5_availability_threshold_witness :
    total_stake (add_validator (Committee.new 0) 0 10).1 = Except.ok 10 ∧
    availability_threshold (add_validator (Committee.new 0) 0 10).1 = Except.ok 4 :=
  ⟨rfl, (C5_availability_threshold (add_validator (Committee.new 0) 0 10).1 10
    rfl).2.2.2.1 rfl⟩

/-- Claim C6 (confirmed): `add_validator` on an address already in the
committee fails with the duplicate-validator error and leaves the whole
state unchanged (the returned state is `c` itself), for any stake. -/
theorem C6_duplicate_register (c : Committee) (a s : Nat)
    (h : is_committee_member c a = true) :
    add_validator c a s = (c, Except.error CommitteeError.duplicateValidator) := by
  simp [add_validator, h]

/-- Witness for C6: re-registering the sole member of a one-member
committee fails and returns the state unchanged. -/
theorem C6_duplicate_register_witness :
    add_validator (add_validator (Committee.new 0) 0 10).1 0 5 =
      ((add_validator (Committee.new 0) 0 10).1,
        Except.error CommitteeError.duplicateValidator) :=
  C6_duplicate_register (add_validator (Committee.new 0) 0 10).1 0 5 rfl

/-- Claim C10 (confirmed): registering a fresh address with stake `0`
makes it a member whose `get_stake` is `0` — indistinguishable by
`get_stake` from a never-registered address — while `committee_size`
grows by one and `total_stake`, `quorum_threshold` and
`availability_threshold` are unchanged. -/
theorem C10_zero_stake_member (c : Committee) (a : Nat)
    (h : is_committee_member c a = false) :
    is_committee_member (add_validator c a 0).1 a = true ∧
    get_stake (add_validator c a 0).1 a = 0 ∧
    get_stake c a = 0 ∧
    committee_size (add_validator c a 0).1 = committee_size c + 1 ∧
    total_stake (add_validator c a 0).1 = total_stake c ∧
    quorum_threshold (add_validator c a 0).1 = quorum_threshold c ∧
    availability_threshold (add_validator c a 0).1 = availability_threshold c := by
  have hl : lookupKey c.committee a = none := by
    unfold is_committee_member at h
    cases hx : lookupKey c.committee a with
    | none => rfl
    | some v =>
      rw [hx] at h
      simp at h
  have hc' : (add_validator c a 0).1.committee = (a, 0) :: c.committee := by
    simp [add_validator, h, insertKey, removeKey_eq_of_lookup_none _ _ hl]
  have htot : total_stake (add_validator c a 0).1 = total_stake c := by
    rw [total_stake_eq, total_stake_eq, hc']
    simp
  refine ⟨?_, ?_, ?_, ?_, htot, ?_, ?_⟩
  · simp [is_committee_member, hc', lookupKey]
  · simp [get_stake, hc', lookupKey]
  · simp [get_stake, hl]
  · simp [committee_size, hc']
  · unfold quorum_threshold
    rw [htot]
  · unfold availability_threshold
    rw [htot]

/-- Witness for C10 at the empty committee and address `0`. -/
theorem C10_zero_stake_member_witness :
    is_committee_member (add_validator (Committee.new 0) 0 0).1 0 = true ∧
    get_stake (add_validator (Committee.new 0) 0 0).1 0 = 0 ∧
    get_stake (Committee.new 0) 0 = 0 ∧
    committee_size (add_validator (Committee.new 0) 0 0).1 =
      committee_size (Committee.new 0) + 1 ∧
    total_stake (add_validator (Committee.new 0) 0 0).1 =
      total_stake (Committee.new 0) ∧
    quorum_threshold (add_validator (Committee.new 0) 0 0).1 =
      quorum_threshold (Committee.new 0) ∧
    availability_threshold (add_validator (Committee.new 0) 0 0).1 =
      availability_threshold (Committee.new 0) :=
  C10_zero_stake_member (Committee.new 0) 0 rfl

theorem incrementN_round :
    ∀ (n : Nat) (c : Committee), c.round < 2 ^ 64 →
      (incrementN c n).round = (c.round + n) % 2 ^ 64 := by
  intro n
  induction n with
  | zero =>
    intro c hc
    simpa [incrementN] using (Nat.mod_eq_of_lt hc).symm
  | succ n ih =>
    intro c hc
    have h1 : (increment_round c).round = (c.round + 1) % 2 ^ 64 := rfl
    have h2 : (increment_round c).round < 2 ^ 64 := by
      rw [h1]
      exact Nat.mod_lt _ (by norm_num)
    calc (incrementN c (n + 1)).round
        = (incrementN (increment_round c) n).round := rfl
      _ = ((increment_round c).round + n) % 2 ^ 64 := ih _ h2
      _ = ((c.round + 1) % 2 ^ 64 + n) % 2 ^ 64 := by rw [h1]
      _ = (c.round + 1 + n) % 2 ^ 64 := Nat.mod_add_mod _ _ _
      _ = (c.round + (n + 1)) % 2 ^ 64 := by ring_nf

/-- Claim C8 (confirmed): starting from `Committee::new(r)` with `r` a
`u64`, `n` calls of `increment_round` leave the round at `(r + n) mod
2^64`: each call adds exactly one and the counter wraps modulo `2^64`
instead of failing. -/
theorem C8_round_advance (r n : Nat) (hr : r < 2 ^ 64) :
    (incrementN (Committee.new r) n).round = (r + n) % 2 ^ 64 :=
  incrementN_round n (Committee.new r) hr

/-- Witness for C8: three increments from round `5` give round `8`. -/
theorem C8_round_advance_witness :
    (incrementN (Committee.new 5) 3).round = 8 := by
  rw [C8_round_advance 5 3 (by norm_num)]
  decide

/-- Claim C9 (confirmed): reading the primary sender of a fresh committee
panics (modelled as `none`); a successful `set_primary_sender c s = some c'`
makes every later read return `s` — also after round increments,
validator registrations and peer updates — and any second set on `c'`
panics. -/
theorem C9_primary_sender (r s : Nat) (c c' : Committee)
    (h : set_primary_sender c s = some c') :
    primary_sender (Committee.new r) = none ∧
    primary_sender c' = some s ∧
    (∀ s2, set_primary_sender c' s2 = none) ∧
    primary_sender (increment_round c') = some s ∧
    (∀ a st, primary_sender ((add_validator c' a st).1) = some s) ∧
    (∀ ip a, primary_sender (insert_peer c' ip a) = some s) ∧
    (∀ ip, primary_sender (remove_peer c' ip) = some s) := by
  have hc' : c'.primarySender = some s := by
    unfold set_primary_sender at h
    cases hx : c.primarySender with
    | none =>
      rw [hx] at h
      simp only [Option.some.injEq] at h
      rw [← h]
    | some t =>
      rw [hx] at h
      exact absurd h (by simp)
  refine ⟨rfl, hc', ?_, ?_, ?_, ?_, ?_⟩
  · intro s2
    simp [set_primary_sender, hc']
  · simp [primary_sender, increment_round, hc']
  · intro a st
    unfold add_validator
    by_cases hm : is_committee_member c' a
    · simp [hm, primary_sender, hc']
    · simp [hm, primary_sender, hc']
  · intro ip a
    simp [primary_sender, insert_peer, hc']
  · intro ip
    unfold remove_peer
    cases lookupKey c'.peer_addresses ip with
    | none => simpa [primary_sender] using hc'
    | some addr => simpa [primary_sender] using hc'

/-- Witness for C9: installing sender `5` on a fresh committee succeeds,
and a second install on the result panics. -/
theorem C9_primary_sender_witness :
    primary_sender (Committee.new 1) = none ∧
    primary_sender { Committee.new 0 with primarySender := some 5 } = some 5 ∧
    (∀ s2, set_primary_sender { Committee.new 0 with primarySender := some 5 } s2 = none) := by
  have h := C9_primary_sender 1 5 (Committee.new 0)
    { Committee.new 0 with primarySender := some 5 } rfl
  exact ⟨h.1, h.2.1, h.2.2.1⟩

/-- Claim C1 (corrected), counterexample: after `insert_peer(0, 7)` then
`insert_peer(1, 7)` (the same address `7` rebound from peer IP `0` to
peer IP `1`), the claim's conjunction fails: `get_address 0` is *not*
`none` — the stale forward entry `0 → 7` survives. -/
theorem C1_counterexample :
    ¬ (get_peer_ip (applyPeerOps (Committee.new 0)
          [PeerOp.bind 0 7, PeerOp.bind 1 7]) 7 = some 1 ∧
       get_address (applyPeerOps (Committee.new 0)
          [PeerOp.bind 0 7, PeerOp.bind 1 7]) 0 = none) := by
  decide

/-- Claim C1 (amended): after `Bind(A, X)` then `Bind(B, X)` with
`A ≠ B`, lookup-by-identity for `X` returns `B`, while lookup-by-address
for `A` still returns `X`: the stale forward entry survives the rebind. -/
theorem C1_rebind (c : Committee) (A B X : Nat) (h : A ≠ B) :
    get_peer_ip (insert_peer (insert_peer c A X) B X) X = some B ∧
    get_address (insert_peer (insert_peer c A X) B X) A = some X := by
  constructor
  · simp only [get_peer_ip, insert_peer]
    exact lookupKey_insert_self _ X B
  · simp only [get_address, insert_peer]
    rw [lookupKey_insert_ne _ B A X h]
    exact lookupKey_insert_self _ A X

/-- Witness for C1 at `A = 0`, `B = 1`, `X = 7` from the empty state. -/
theorem C1_rebind_witness :
    get_peer_ip (insert_peer (insert_peer (Committee.new 0) 0 7) 1 7) 7 = some 1 ∧
    get_address (insert_peer (insert_peer (Committee.new 0) 0 7) 1 7) 0 = some 7 :=
  C1_rebind (Committee.new 0) 0 1 7 (by decide)

/-- Claim C7 (confirmed): when peer IP `A` is bound to address `X`,
`remove_peer A` removes the forward entry for `A` and the reverse entry
for `X`, so both lookups return `none` afterwards; when `A` is unbound,
`remove_peer A` is a no-op (and it never fails). -/
theorem C7_unbind (c : Committee) (A X : Nat) :
    (get_address c A = some X →
      get_address (remove_peer c A) A = none ∧
      get_peer_ip (remove_peer c A) X = none) ∧
    (get_address c A = none → remove_peer c A = c) := by
  constructor
  · intro h
    unfold get_address at h
    unfold remove_peer
    rw [h]
    exact ⟨lookupKey_remove_self _ A, lookupKey_remove_self _ X⟩
  · intro h
    unfold get_address at h
    unfold remove_peer
    rw [h]

/-- Witness for C7: unbinding peer IP `0`, bound to address `7`, clears
both lookups. -/
theorem C7_unbind_witness :
    get_address (remove_peer (insert_peer (Committee.new 0) 0 7) 0) 0 = none ∧
    get_peer_ip (remove_peer (insert_peer (Committee.new 0) 0 7) 0) 7 = none :=
  (C7_unbind (insert_peer (Committee.new 0) 0 7) 0 7).1 rfl

/-! ### Peer-directory consistency -/

theorem consistent_new (r : Nat) : Consistent (Committee.new r) := by
  intro ip a
  simp [get_address, get_peer_ip, Committee.new, lookupKey]

theorem consistent_insert {c : Committee} {ip a : Nat} (hc : Consistent c)
    (h1 : get_address c ip = none) (h2 : get_peer_ip c a = none) :
    Consistent (insert_peer c ip a) := by
  have hc' : ∀ ip a, lookupKey c.peer_addresses ip = some a ↔
      lookupKey c.address_peers a = some ip := hc
  have h1' : lookupKey c.peer_addresses ip = none := h1
  have h2' : lookupKey c.address_peers a = none := h2
  intro ip' a'
  show lookupKey (insertKey c.peer_addresses ip a) ip' = some a' ↔
    lookupKey (insertKey c.address_peers a ip) a' = some ip'
  by_cases hip : ip' = ip
  · subst hip
    by_cases ha : a' = a
    · subst ha
      rw [lookupKey_insert_self, lookupKey_insert_self]
      simp
    · rw [lookupKey_insert_self, lookupKey_insert_ne c.address_peers a a' ip' ha]
      constructor
      · intro hx
        injection hx with hx
        exact absurd hx.symm ha
      · intro hx
        have h3 := (hc' ip' a').mpr hx
        rw [h1'] at h3
        exact absurd h3 (by simp)
  · by_cases ha : a' = a
    · subst ha
      rw [lookupKey_insert_ne c.peer_addresses ip ip' a' hip, lookupKey_insert_self]
      constructor
      · intro hx
        have h3 := (hc' ip' a').mp hx
        rw [h2'] at h3
        exact absurd h3 (by simp)
      · intro hx
        injection hx with hx
        exact absurd hx.symm hip
    · rw [lookupKey_insert_ne c.peer_addresses ip ip' a hip,
        lookupKey_insert_ne c.address_peers a a' ip ha]
      exact hc' ip' a'

theorem consistent_remove {c : Committee} (hc : Consistent c) (ip : Nat) :
    Consistent (remove_peer c ip) := by
  have hc' : ∀ ip a, lookupKey c.peer_addresses ip = some a ↔
      lookupKey c.address_peers a = some ip := hc
  unfold remove_peer
  cases hx : lookupKey c.peer_addresses ip with
  | none => exact hc
  | some a =>
    have hxa : lookupKey c.address_peers a = some ip := (hc' ip a).mp hx
    intro ip' a'
    show lookupKey (removeKey c.peer_addresses ip) ip' = some a' ↔
      lookupKey (removeKey c.address_peers a) a' = some ip'
    by_cases hip : ip' = ip
    · subst hip
      rw [lookupKey_remove_self]
      constructor
      · intro hfalse
        exact absurd hfalse (by simp)
      · intro hb
        by_cases ha : a' = a
        · subst ha
          rw [lookupKey_remove_self] at hb
          exact absurd hb (by simp)
        · rw [lookupKey_remove_ne _ a a' ha] at hb
          have h3 := (hc' ip' a').mpr hb
          rw [hx] at h3
          injection h3 with h3
          exact absurd h3.symm ha
    · rw [lookupKey_remove_ne _ ip ip' hip]
      by_cases ha : a' = a
      · subst ha
        rw [lookupKey_remove_self]
        constructor
        · intro hl
          have h3 := (hc' ip' a').mp hl
          rw [hxa] at h3
          injection h3 with h3
          exact absurd h3.symm hip
        · intro hfalse
          exact absurd hfalse (by simp)
      · rw [lookupKey_remove_ne _ a a' ha]
        exact hc' ip' a'

theorem freshBinds_consistent :
    ∀ (ops : List PeerOp) (c : Committee), Consistent c → FreshBinds c ops →
      Consistent (applyPeerOps c ops) := by
  intro ops
  induction ops with
  | nil =>
    intro c hc _
    exact hc
  | cons op rest ih =>
    intro c hc hf
    cases op with
    | bind ip a =>
      obtain ⟨h1, h2, hrest⟩ := hf
      exact ih (insert_peer c ip a) (consistent_insert hc h1 h2) hrest
    | unbind ip =>
      exact ih (remove_peer c ip) (consistent_remove hc ip) hf

/-- Claim C3 (corrected), counterexample: from the empty directory, the
sequence `Bind(0, 7)`, `Bind(1, 7)` reaches a state where the forward
map still has `0 → 7` but the backward map has `7 → 1`: the two maps are
not mutually consistent. -/
theorem C3_counterexample :
    ¬ Consistent (applyPeerOps (Committee.new 0)
        [PeerOp.bind 0 7, PeerOp.bind 1 7]) := by
  intro h
  have h2 := (h 0 7).mp (by decide)
  exact absurd h2 (by decide)

/-- Claim C3 (amended): the forward and backward maps are mutually
consistent in every state reachable by Bind and Unbind operations in
which each Bind binds a peer IP with no current binding and an address
with no current binding; a Bind that rebinds an already-bound peer IP or
address can break the consistency. -/
theorem C3_consistency (r : Nat) (ops : List PeerOp)
    (h : FreshBinds (Committee.new r) ops) :
    Consistent (applyPeerOps (Committee.new r) ops) :=
  freshBinds_consistent ops (Committee.new r) (consistent_new r) h

/-- Witness for C3: a fresh bind followed by its unbind yields a
consistent directory. -/
theorem C3_consistency_witness :
    Consistent (applyPeerOps (Committee.new 0)
      [PeerOp.bind 0 7, PeerOp.unbind 0]) :=
  C3_consistency 0 [PeerOp.bind 0 7, PeerOp.unbind 0] ⟨rfl, rfl, trivial⟩

/-! ### Register sequences -/

theorem registerAll_cons_ok {c c1 : Committee} {a s : Nat}
    {rest : List (Nat × Nat)} (h : add_validator c a s = (c1, Except.ok ())) :
    registerAll c ((a, s) :: rest) = registerAll c1 rest := by
  show (match add_validator c a s with
    | (c', Except.ok _) => registerAll c' rest
    | (c', Except.error e) => (c', Except.error e)) = registerAll c1 rest
  rw [h]

theorem registerAll_spec :
    ∀ (l : List (Nat × Nat)) (c : Committee),
      (l.map Prod.fst).Nodup →
      (∀ a ∈ l.map Prod.fst, lookupKey c.committee a = none) →
      (registerAll c l).2 = Except.ok () ∧
      (registerAll c l).1.committee = l.reverse ++ c.committee := by
  intro l
  induction l with
  | nil =>
    intro c _ _
    exact ⟨rfl, by simp [registerAll]⟩
  | cons p rest ih =>
    intro c hnd hfresh
    obtain ⟨a, s⟩ := p
    have hnd2 : a ∉ rest.map Prod.fst ∧ (rest.map Prod.fst).Nodup := by
      rw [List.map_cons, List.nodup_cons] at hnd
      exact hnd
    have ha : lookupKey c.committee a = none := hfresh a (by simp)
    have hmem : is_committee_member c a = false := by
      simp [is_committee_member, ha]
    have hstep : add_validator c a s =
        ({ c with committee := (a, s) :: c.committee }, Except.ok ()) := by
      simp [add_validator, hmem, insertKey, removeKey_eq_of_lookup_none _ _ ha]
    have hfresh' : ∀ x ∈ rest.map Prod.fst,
        lookupKey ({ c with committee := (a, s) :: c.committee }).committee x = none := by
      intro x hx
      have hax : ¬ a = x := by
        intro hEq
        rw [hEq] at hnd2
        exact hnd2.1 hx
      show lookupKey ((a, s) :: c.committee) x = none
      simp only [lookupKey, if_neg hax]
      exact hfresh x (by simp [hx])
    have hres := ih { c with committee := (a, s) :: c.committee } hnd2.2 hfresh'
    rw [registerAll_cons_ok hstep]
    refine ⟨hres.1, ?_⟩
    rw [hres.2]
    simp [List.reverse_cons, List.append_assoc]

/-- Claim C4 (confirmed): registering any list of validators with
pairwise-distinct addresses from a fresh committee succeeds;
`committee_size` then equals the number of registrations, and
`total_stake` returns the exact sum of the registered stakes when that
sum fits a `u64` and fails with the overflow error (never wrapping or
saturating) when it exceeds `u64::MAX`. -/
theorem C4_register_ledger (r : Nat) (l : List (Nat × Nat))
    (hnd : (l.map Prod.fst).Nodup) :
    (registerAll (Committee.new r) l).2 = Except.ok () ∧
    committee_size (registerAll (Committee.new r) l).1 = l.length ∧
    ((l.map Prod.snd).sum ≤ U64MAX →
      total_stake (registerAll (Committee.new r) l).1 =
        Except.ok (l.map Prod.snd).sum) ∧
    (U64MAX < (l.map Prod.snd).sum →
      total_stake (registerAll (Committee.new r) l).1 =
        Except.error CommitteeError.stakeOverflow) := by
  obtain ⟨hok, hcomm⟩ :=
    registerAll_spec l (Committee.new r) hnd (fun x _ => rfl)
  have hcomm' : (registerAll (Committee.new r) l).1.committee = l.reverse := by
    simpa [Committee.new] using hcomm
  have hvals : ((registerAll (Committee.new r) l).1.committee.map Prod.snd).sum
      = (l.map Prod.snd).sum := by
    rw [hcomm', List.map_reverse, List.sum_reverse]
  refine ⟨hok, ?_, ?_, ?_⟩
  · rw [committee_size, hcomm', List.length_reverse]
  · intro hle
    rw [total_stake_eq, hvals, if_pos hle]
  · intro hgt
    rw [total_stake_eq, hvals, if_neg (by omega)]

/-- Witness for C4 at the two-element ledger `[(0, 3), (1, 4)]`. -/
theorem C4_register_ledger_witness :
    (registerAll (Committee.new 0) [(0, 3), (1, 4)]).2 = Except.ok () ∧
    committee_size (registerAll (Committee.new 0) [(0, 3), (1, 4)]).1 = 2 ∧
    total_stake (registerAll (Committee.new 0) [(0, 3), (1, 4)]).1 =
      Except.ok 7 := by
  have h := C4_register_ledger 0 [(0, 3), (1, 4)] (by decide)
  exact ⟨h.1, h.2.1, h.2.2.1 (by decide)⟩

end SnarkOS
